import Mathlib

/-!
Verification of the `ringbuf` repository: a shallow embedding of the two
ring-buffer implementations and proofs of the specification's claims.

* `Lib` embeds `src/lib.rs`, the single-threaded ("reference sequential")
  ring buffer over `u64` values.
* `Spsc` embeds `src/spsc_lockfree_bounded.rs`, the lock-free SPSC ring
  buffer, interpreted sequentially (one operation at a time), which is the
  setting of the claims about it.

Machine integers (`u64`, `usize`) are modelled as `Nat`.  The one place
where Rust integer overflow can actually occur for a constructible buffer
is the subtraction in `wrapped_distance` (`lib.rs:100`): there we model
two's-complement wraparound modulo `2^64`, the behaviour of the compiled
(release-profile) code.  Additions such as `write + 1` and
`64 * capacity` stay far below `2^64` for any buffer that Rust's allocator
can construct (a `Vec<u64>` needs `capacity < 2^60`), so they are modelled
as plain `Nat` addition/multiplication.
-/

deriving instance DecidableEq for Except

namespace Ringbuf

/-- Modulus of Rust's `u64` arithmetic. -/
def u64Mod : Nat := 2 ^ 64

namespace Lib

/-- `lib.rs:22` — `const SENTINEL_VALUE: u64 = 0xdeadc0de;` -/
def SENTINEL_VALUE : Nat := 0xdeadc0de

/-- `lib.rs:12-18` — the error enum of the sequential model. -/
inductive SPSCRingBufferError where
  | PushError (v : Nat)
  | PopError (v : Nat)
deriving DecidableEq, Repr

/-- `lib.rs:25-29` — the sequential ring buffer: two cursors and a
`Vec<u64>` of slots.  `vec![0; cap]` makes length = capacity, so the
capacity is recovered as `buffer.length`. -/
structure SPSCRingBuffer where
  read : Nat
  write : Nat
  buffer : List Nat
deriving DecidableEq, Repr

/-- `lib.rs:32-41` — `SPSCRingBuffer::new`. -/
def new (cap : Nat) : SPSCRingBuffer :=
  { read := 0, write := 0, buffer := List.replicate cap 0 }

/-- `lib.rs:93-95` — `capacity()`, i.e. `self.buffer.capacity()`
(`vec![0; cap]` allocates exactly `cap`). -/
def capacity (s : SPSCRingBuffer) : Nat := s.buffer.length

/-- `lib.rs:112-115` — `fold`: cursors wrap modulo `64 * capacity`. -/
def fold (s : SPSCRingBuffer) (val : Nat) : Nat :=
  val % (64 * capacity s)

/-- `lib.rs:116-118` — `modulo`: reduce a cursor to a slot index. -/
def modulo (s : SPSCRingBuffer) (val : Nat) : Nat :=
  val % capacity s

/-- `lib.rs:96-102` — `wrapped_distance`.  In the `write < read` branch
the Rust expression `self.write + capacity - self.read` is a `u64`
subtraction that wraps modulo `2^64` when `read > write + capacity`. -/
def wrapped_distance (s : SPSCRingBuffer) : Nat :=
  if s.read ≤ s.write then
    (s.write - s.read) % capacity s
  else
    ((s.write + capacity s + u64Mod - s.read) % u64Mod) % capacity s

/-- `lib.rs:104-106` — `size()`. -/
def size (s : SPSCRingBuffer) : Nat := wrapped_distance s

/-- `lib.rs:109-111` — `free()`: `capacity - size - 1` (one sentinel
slot).  `size < capacity` always holds, so the `usize` subtraction never
underflows and agrees with truncated `Nat` subtraction. -/
def free (s : SPSCRingBuffer) : Nat := capacity s - size s - 1

/-- `lib.rs:85-87` — `full()`. -/
def full (s : SPSCRingBuffer) : Bool := free s == 0

/-- `lib.rs:88-90` — `empty()`. -/
def empty (s : SPSCRingBuffer) : Bool := s.write == s.read

/-- `lib.rs:46-57` — `push`: when not full, store at `write % capacity`
and advance the folded write cursor; otherwise return `false` and leave
the state unchanged. -/
def push (s : SPSCRingBuffer) (v : Nat) : Bool × SPSCRingBuffer :=
  if !(full s) then
    let idx := s.write % capacity s
    (true, { s with buffer := s.buffer.set idx v, write := fold s (s.write + 1) })
  else
    (false, s)

/-- `lib.rs:60-69` — `force_push`: when full, first advance the read
cursor (dropping the oldest element), then store and advance `write`. -/
def force_push (s : SPSCRingBuffer) (v : Nat) : SPSCRingBuffer :=
  let s1 := if full s then { s with read := fold s (s.read + 1) } else s
  let idx := s1.write % capacity s1
  { s1 with buffer := s1.buffer.set idx v, write := fold s1 (s1.write + 1) }

/-- `lib.rs:72-84` — `pop`: on an empty buffer return
`PopError(write)` and change nothing; otherwise return the slot value,
overwrite that slot with `SENTINEL_VALUE`, and advance `read`. -/
def pop (s : SPSCRingBuffer) : Except SPSCRingBufferError Nat × SPSCRingBuffer :=
  let idx := s.read % capacity s
  let v := s.buffer.getD idx 0
  if empty s then
    (Except.error (SPSCRingBufferError.PopError s.write), s)
  else
    (Except.ok v,
      { s with buffer := s.buffer.set idx SENTINEL_VALUE, read := fold s (s.read + 1) })

/-- An operation of the sequential model's public interface. -/
inductive Op where
  | push (v : Nat)
  | pop
  | force_push (v : Nat)
deriving DecidableEq, Repr

/-- Execute one operation, keeping only the state. -/
def step (s : SPSCRingBuffer) : Op → SPSCRingBuffer
  | Op.push v => (push s v).2
  | Op.pop => (pop s).2
  | Op.force_push v => force_push s v

/-- Execute a sequence of operations from a given state. -/
def run (s : SPSCRingBuffer) (ops : List Op) : SPSCRingBuffer :=
  ops.foldl step s

/-- Push a list of values in order; the flag records whether every push
succeeded. -/
def pushAll (s : SPSCRingBuffer) : List Nat → Bool × SPSCRingBuffer
  | [] => (true, s)
  | v :: vs =>
    let p := push s v
    let q := pushAll p.2 vs
    (p.1 && q.1, q.2)

/-- Pop `k` times, collecting the results in order. -/
def popN (s : SPSCRingBuffer) : Nat → List (Except SPSCRingBufferError Nat) × SPSCRingBuffer
  | 0 => ([], s)
  | k + 1 =>
    let p := pop s
    let q := popN p.2 k
    (p.1 :: q.1, q.2)

/-- Force-push a list of values in order. -/
def forceAll (s : SPSCRingBuffer) (vs : List Nat) : SPSCRingBuffer :=
  vs.foldl force_push s

end Lib

namespace Spsc

/-- `spsc_lockfree_bounded.rs:18-24` — the error enum of the lock-free
engine; the payload of `PushError` is the write cursor (a `usize`). -/
inductive SPSCRingBufferError where
  | PushError (n : Nat)
  | PopError (n : Nat)
deriving DecidableEq, Repr

/-- `spsc_lockfree_bounded.rs:26-31` — buffer, capacity and the two
atomic cursors.  Element type instantiated at `u64` (the type every use
in the repository instantiates); claims about values need no arithmetic
on them, so values are plain `Nat`. -/
structure SPSCRingBuffer where
  buffer : List Nat
  capacity : Nat
  write : Nat
  read : Nat
deriving DecidableEq, Repr

/-- `spsc_lockfree_bounded.rs:36-47` — `new`: `capacity` zeroed slots,
both cursors 0. -/
def new (cap : Nat) : SPSCRingBuffer :=
  { buffer := List.replicate cap 0, capacity := cap, write := 0, read := 0 }

/-- `spsc_lockfree_bounded.rs:101-103` — the free function
`empty(read_idx, write_idx)`. -/
def emptyIdx (read_idx write_idx : Nat) : Bool := read_idx == write_idx

/-- `spsc_lockfree_bounded.rs:56-71` — `push`: full iff
`(write + 1) % capacity == read`; on success store at slot `write` and
publish the new write cursor.  On `Full` the submitted value is dropped
and the error carries the write cursor. -/
def push (s : SPSCRingBuffer) (v : Nat) :
    Except SPSCRingBufferError Nat × SPSCRingBuffer :=
  let write := s.write
  let next_write := (write + 1) % s.capacity
  if next_write == s.read then
    (Except.error (SPSCRingBufferError.PushError write), s)
  else
    (Except.ok write, { s with buffer := s.buffer.set write v, write := next_write })

/-- `spsc_lockfree_bounded.rs:73-88` — `pop`: empty iff `read == write`;
otherwise return `(read, value)` and publish the new read cursor.  The
slot itself is not modified. -/
def pop (s : SPSCRingBuffer) : Option (Nat × Nat) × SPSCRingBuffer :=
  if emptyIdx s.read s.write then
    (none, s)
  else
    (some (s.read, s.buffer.getD s.read 0), { s with read := (s.read + 1) % s.capacity })

/-- `spsc_lockfree_bounded.rs:90-92` — the `empty` method. -/
def SPSCRingBuffer.empty (s : SPSCRingBuffer) : Bool := s.read == s.write

/-- An operation of the engine, as executed sequentially. -/
inductive Op where
  | push (v : Nat)
  | pop
deriving DecidableEq, Repr

/-- Execute one operation, keeping only the state. -/
def step (s : SPSCRingBuffer) : Op → SPSCRingBuffer
  | Op.push v => (push s v).2
  | Op.pop => (pop s).2

/-- Execute a sequence of operations from a given state. -/
def run (s : SPSCRingBuffer) (ops : List Op) : SPSCRingBuffer :=
  ops.foldl step s

/-- The occupied count: the wraparound distance from the read cursor to
the write cursor, modulo the capacity. -/
def count (s : SPSCRingBuffer) : Nat :=
  (s.write + s.capacity - s.read) % s.capacity

/-- Push a list of values in order; the flag records whether every push
succeeded. -/
def pushAll (s : SPSCRingBuffer) : List Nat → Bool × SPSCRingBuffer
  | [] => (true, s)
  | v :: vs =>
    let p := push s v
    let q := pushAll p.2 vs
    ((p.1.toOption.isSome && q.1), q.2)

/-- Pop `k` times, collecting the results in order. -/
def popN (s : SPSCRingBuffer) : Nat → List (Option (Nat × Nat)) × SPSCRingBuffer
  | 0 => ([], s)
  | k + 1 =>
    let p := pop s
    let q := popN p.2 k
    (p.1 :: q.1, q.2)

end Spsc

end Ringbuf

open Ringbuf

/-- The trace used for the wraparound counterexamples: `n` rounds of
`push 1; pop`, which advance both cursors together. -/
def pairOps (n : Nat) : List Lib.Op :=
  (List.replicate n [Lib.Op.push 1, Lib.Op.pop]).flatten

/-- A trace of capacity-3 operations whose final state has `write < read`:
191 push/pop rounds bring both cursors to 191 (the fold modulus being
`64 * 3 = 192`), and one more push folds `write` to `0`. -/
def wrapOps : List Lib.Op := pairOps 191 ++ [Lib.Op.push 9]

/-! ## Helper lemmas about lists and modular arithmetic -/

/-- Reading a list at an index other than the one just written is
unchanged. -/
theorem getD_set_ne (l : List Nat) (i j : Nat) (v d : Nat) (h : i ≠ j) :
    (l.set i v).getD j d = l.getD j d := by
  rw [List.getD_eq_getElem?_getD, List.getD_eq_getElem?_getD, List.getElem?_set_ne h]

/-- Reading a list at the index just written yields the written value. -/
theorem getD_set_self (l : List Nat) (i : Nat) (v d : Nat) (h : i < l.length) :
    (l.set i v).getD i d = v := by
  have h2 : i < (l.set i v).length := by simpa using h
  rw [List.getD_eq_getElem _ _ h2, List.getElem_set_self]

/-- Advancing an index by `0 < d < n` changes its residue modulo `n`. -/
theorem add_mod_ne (r d n : Nat) (h1 : 0 < d) (h2 : d < n) :
    (r + d) % n ≠ r % n := by
  intro h
  have hmod : r + d ≡ r + 0 [MOD n] := by
    simpa [Nat.ModEq] using h
  have hd : d ≡ 0 [MOD n] := Nat.ModEq.add_left_cancel (Nat.ModEq.refl r) hmod
  have : d % n = 0 := by simpa [Nat.ModEq, Nat.mod_eq_of_lt h2] using hd
  rw [Nat.mod_eq_of_lt h2] at this
  omega

/-- Reading each position of a list in order reconstructs the list. -/
theorem range_map_getD (l : List Nat) (d : Nat) :
    (List.range l.length).map (fun i => l.getD i d) = l := by
  apply List.ext_getElem
  · simp
  · intro n h1 h2
    simp only [List.getElem_map, List.getElem_range]
    exact List.getD_eq_getElem l d h2

/-- Mapping a function over each position of a list, read in order,
is mapping it over the list. -/
theorem range_map_getD_f {α : Type} (l : List Nat) (d : Nat) (f : Nat → α) :
    (List.range l.length).map (fun i => f (l.getD i d)) = l.map f := by
  apply List.ext_getElem
  · simp
  · intro n h1 h2
    simp only [List.getElem_map, List.getElem_range]
    rw [List.getD_eq_getElem l d (by simpa using h1)]

/-- Appending on the right does not change reads inside the left part. -/
theorem getD_append_lt (l l2 : List Nat) (i d : Nat) (h : i < l.length) :
    (l ++ l2).getD i d = l.getD i d := by
  have h2 : i < (l ++ l2).length := by simp; omega
  rw [List.getD_eq_getElem _ _ h2, List.getD_eq_getElem _ _ h,
    List.getElem_append_left h]

/-- Reading an appended singleton at the old length yields the new value. -/
theorem getD_concat_self (l : List Nat) (a d : Nat) :
    (l ++ [a]).getD l.length d = a := by
  have h2 : l.length < (l ++ [a]).length := by simp
  rw [List.getD_eq_getElem _ _ h2]
  simp

/-! ## C1 — lock-free push on a full buffer -/

/-- C1 (counterexample): the claim says the `Full` error carries the
originally submitted value.  Push `7` into a fresh capacity-2 engine
(making it full), then push `5`: the error payload is the write cursor
`1`, not the submitted value `5`, which is dropped. -/
theorem C1_push_full_payload_not_value :
    (Spsc.push (Spsc.push (Spsc.new 2) 7).2 5).1
      = Except.error (Spsc.SPSCRingBufferError.PushError 1) ∧ (1 : Nat) ≠ 5 := by
  decide

/-- C1 (amended): when `(write + 1) % capacity == read`, `push` returns
`Err(PushError(write))` — the error carries the current write cursor,
the submitted value being dropped — and the state is unchanged. -/
theorem C1_push_full_returns_cursor (s : Spsc.SPSCRingBuffer) (v : Nat)
    (h : (s.write + 1) % s.capacity = s.read) :
    Spsc.push s v = (Except.error (Spsc.SPSCRingBufferError.PushError s.write), s) := by
  simp [Spsc.push, h]

/-- C1 (witness): the amended theorem applied to the concrete full
capacity-2 state reached by pushing `7`. -/
theorem C1_push_full_returns_cursor_witness :
    Spsc.push (Spsc.push (Spsc.new 2) 7).2 5
      = (Except.error (Spsc.SPSCRingBufferError.PushError 1), (Spsc.push (Spsc.new 2) 7).2) :=
  C1_push_full_returns_cursor (Spsc.push (Spsc.new 2) 7).2 5 (by decide)

/-! ## C5 — the sequential model's size/free/full arithmetic -/

/-- Unfolding one `push 1; pop` round of `pairOps`. -/
theorem pairOps_succ (n : Nat) :
    pairOps (n + 1) = Lib.Op.push 1 :: Lib.Op.pop :: pairOps n := by
  simp [pairOps, List.replicate_succ]

/-- Running `k` rounds of `push 1; pop` from a state with equal cursors
advances both cursors by `k` (as long as they stay below the fold
modulus) and preserves the capacity. -/
theorem pair_run (cap : Nat) (hcap : 2 ≤ cap) :
    ∀ (k : Nat) (s : Lib.SPSCRingBuffer), Lib.capacity s = cap → s.read = s.write →
      s.write + k < 64 * cap →
      (Lib.run s (pairOps k)).read = s.write + k ∧
      (Lib.run s (pairOps k)).write = s.write + k ∧
      Lib.capacity (Lib.run s (pairOps k)) = cap := by
  intro k
  induction k with
  | zero =>
    intro s hc hrw _
    simp [pairOps, Lib.run, hrw, hc]
  | succ n ih =>
    intro s hc hrw hlt
    have hsize : Lib.size s = 0 := by
      unfold Lib.size Lib.wrapped_distance
      rw [if_pos (le_of_eq hrw)]
      simp [hrw]
    have hfull : Lib.full s = false := by
      simp only [Lib.full, Lib.free, hsize, hc, beq_eq_false_iff_ne, ne_eq]
      omega
    have hw1 : s.write + 1 < 64 * cap := by omega
    have hfold : Lib.fold s (s.write + 1) = s.write + 1 := by
      unfold Lib.fold
      rw [hc]
      exact Nat.mod_eq_of_lt hw1
    rw [pairOps_succ, Lib.run, List.foldl_cons, List.foldl_cons]
    set s1 := Lib.step s (Lib.Op.push 1) with hs1
    have hs1' : s1 = { s with
        buffer := s.buffer.set (s.write % Lib.capacity s) 1,
        write := s.write + 1 } := by
      rw [hs1]
      simp [Lib.step, Lib.push, hfull, hfold]
    have hs1read : s1.read = s.write := by rw [hs1']; exact hrw
    have hs1write : s1.write = s.write + 1 := by rw [hs1']
    have hs1cap : Lib.capacity s1 = cap := by
      rw [hs1']
      simpa [Lib.capacity] using hc
    have hempty : Lib.empty s1 = false := by
      simp only [Lib.empty, hs1read, hs1write, beq_eq_false_iff_ne, ne_eq]
      omega
    have hfold1 : Lib.fold s1 (s1.read + 1) = s.write + 1 := by
      unfold Lib.fold
      rw [hs1cap, hs1read]
      exact Nat.mod_eq_of_lt hw1
    set s2 := Lib.step s1 Lib.Op.pop with hs2
    have hs2' : s2 = { s1 with
        buffer := s1.buffer.set (s1.read % Lib.capacity s1) Lib.SENTINEL_VALUE,
        read := s.write + 1 } := by
      rw [hs2]
      have hcond : ¬(Lib.empty s1 = true) := by simp [hempty]
      simp [Lib.step, Lib.pop, if_neg hcond, hfold1]
    have hs2read : s2.read = s.write + 1 := by rw [hs2']
    have hs2write : s2.write = s.write + 1 := by rw [hs2']; exact hs1write
    have hs2cap : Lib.capacity s2 = cap := by
      rw [hs2']
      simpa [Lib.capacity] using hs1cap
    have hih := ih s2 hs2cap (by rw [hs2read, hs2write]) (by omega)
    simp only [Lib.run] at hih
    rcases hih with ⟨h1, h2, h3⟩
    refine ⟨?_, ?_, h3⟩
    · rw [h1, hs2write]
      omega
    · rw [h2, hs2write]
      omega

/-- The final state of `wrapOps` on a fresh capacity-3 buffer: the write
cursor has folded to `0` while the read cursor is `191`. -/
theorem wrapOps_state :
    (Lib.run (Lib.new 3) wrapOps).read = 191 ∧
    (Lib.run (Lib.new 3) wrapOps).write = 0 ∧
    Lib.capacity (Lib.run (Lib.new 3) wrapOps) = 3 := by
  have hsplit : Lib.run (Lib.new 3) wrapOps
      = Lib.step (Lib.run (Lib.new 3) (pairOps 191)) (Lib.Op.push 9) := by
    rw [wrapOps, Lib.run, List.foldl_append]
    rfl
  have h0 := pair_run 3 (by omega) 191 (Lib.new 3) rfl rfl (by norm_num [Lib.new])
  rw [hsplit]
  revert h0
  generalize Lib.run (Lib.new 3) (pairOps 191) = s1
  intro h0
  obtain ⟨hr, hw, hc⟩ := h0
  norm_num [Lib.new] at hr hw
  have hsize : Lib.size s1 = 0 := by
    unfold Lib.size Lib.wrapped_distance
    rw [hr, hw, hc]
    simp
  have hfull : Lib.full s1 = false := by
    simp only [Lib.full, Lib.free, hsize, hc, beq_eq_false_iff_ne, ne_eq]
    omega
  have hfold : Lib.fold s1 (s1.write + 1) = 0 := by
    unfold Lib.fold
    rw [hc, hw]
  have hstep : Lib.step s1 (Lib.Op.push 9)
      = { s1 with buffer := s1.buffer.set (s1.write % Lib.capacity s1) 9, write := 0 } := by
    simp [Lib.step, Lib.push, hfull, hfold]
  rw [hstep]
  refine ⟨hr, rfl, ?_⟩
  simpa [Lib.capacity] using hc

/-- C5 (counterexample).  At the reachable capacity-2 state with one
element, `free() = 0` while `capacity - size = 1`, refuting
`free() = capacity - size()`; the state is full while the claimed
distance `(write - read + 2*capacity) mod (2*capacity)` is `1`, not
`capacity`, refuting the full condition.  And at the reachable
capacity-3 state produced by `wrapOps` (where `write` has folded past
`read`), `size()` is `2` while the claimed distance is `1`, refuting the
size formula itself. -/
theorem C5_size_free_full_counterexample :
    (Lib.free (Lib.push (Lib.new 2) 7).2 = 0 ∧
      Lib.capacity (Lib.push (Lib.new 2) 7).2 - Lib.size (Lib.push (Lib.new 2) 7).2 = 1) ∧
    (Lib.full (Lib.push (Lib.new 2) 7).2 = true ∧
      ((((Lib.push (Lib.new 2) 7).2.write : Int) - ((Lib.push (Lib.new 2) 7).2.read : Int)
          + 2 * (Lib.capacity (Lib.push (Lib.new 2) 7).2 : Int))
        % (2 * (Lib.capacity (Lib.push (Lib.new 2) 7).2 : Int)) = 1 ∧ (1 : Int) ≠ 2)) ∧
    ((Lib.size (Lib.run (Lib.new 3) wrapOps) : Int) = 2 ∧
      (((Lib.run (Lib.new 3) wrapOps).write : Int) - ((Lib.run (Lib.new 3) wrapOps).read : Int)
          + 2 * (Lib.capacity (Lib.run (Lib.new 3) wrapOps) : Int))
        % (2 * (Lib.capacity (Lib.run (Lib.new 3) wrapOps) : Int)) = 1 ∧ (2 : Int) ≠ 1) := by
  rcases wrapOps_state with ⟨hr, hw, hc⟩
  refine ⟨by decide, by decide, ?_, ?_⟩
  · show (Lib.size (Lib.run (Lib.new 3) wrapOps) : Int) = 2
    have : Lib.size (Lib.run (Lib.new 3) wrapOps) = 2 := by
      unfold Lib.size Lib.wrapped_distance
      rw [hr, hw, hc]
      norm_num [u64Mod]
    rw [this]
    norm_num
  · rw [hr, hw, hc]
    norm_num

/-- C5 (amended): `size()` is a distance reduced modulo `capacity` (not
`2 * capacity`): whenever `read ≤ write`, `size() = (write - read) %
capacity`; `free() = capacity - size() - 1` (not `capacity - size()`);
and `full()` holds iff `size() = capacity - 1` (not `capacity`). -/
theorem C5_size_free_full (s : Lib.SPSCRingBuffer) (h : 1 ≤ Lib.capacity s) :
    Lib.free s = Lib.capacity s - Lib.size s - 1 ∧
    (Lib.full s = true ↔ Lib.size s = Lib.capacity s - 1) ∧
    (s.read ≤ s.write → Lib.size s = (s.write - s.read) % Lib.capacity s) := by
  have hlt : Lib.size s < Lib.capacity s := by
    unfold Lib.size Lib.wrapped_distance
    split <;> exact Nat.mod_lt _ h
  refine ⟨rfl, ?_, ?_⟩
  · simp only [Lib.full, Lib.free, beq_iff_eq]
    omega
  · intro hrw
    unfold Lib.size Lib.wrapped_distance
    rw [if_pos hrw]

/-- C5 (witness): the amended theorem evaluated at the one-element
capacity-2 state. -/
theorem C5_size_free_full_witness :
    Lib.free (Lib.push (Lib.new 2) 7).2
        = Lib.capacity (Lib.push (Lib.new 2) 7).2 - Lib.size (Lib.push (Lib.new 2) 7).2 - 1 ∧
    (Lib.full (Lib.push (Lib.new 2) 7).2 = true ↔
      Lib.size (Lib.push (Lib.new 2) 7).2 = Lib.capacity (Lib.push (Lib.new 2) 7).2 - 1) ∧
    Lib.size (Lib.push (Lib.new 2) 7).2
        = ((Lib.push (Lib.new 2) 7).2.write - (Lib.push (Lib.new 2) 7).2.read)
          % Lib.capacity (Lib.push (Lib.new 2) 7).2 := by
  have h := C5_size_free_full (Lib.push (Lib.new 2) 7).2 (by decide)
  exact ⟨h.1, h.2.1, h.2.2 (by decide)⟩

/-! ## C8 — error atomicity of the sequential model -/

/-- C8: `push` on a full buffer returns `false` and changes nothing;
`pop` on an empty buffer returns `PopError(write)` and changes
nothing. -/
theorem C8_seq_error_atomicity (s : Lib.SPSCRingBuffer) (v : Nat) :
    (Lib.full s = true → Lib.push s v = (false, s)) ∧
    (Lib.empty s = true → Lib.pop s
      = (Except.error (Lib.SPSCRingBufferError.PopError s.write), s)) := by
  constructor
  · intro h
    simp [Lib.push, h]
  · intro h
    simp [Lib.pop, h]

/-- C8 (witness): push on a concrete full state (capacity 2 holding one
element) and pop on a concrete empty state. -/
theorem C8_seq_error_atomicity_witness :
    Lib.push (Lib.push (Lib.new 2) 7).2 5 = (false, (Lib.push (Lib.new 2) 7).2) ∧
    Lib.pop (Lib.new 2)
      = (Except.error (Lib.SPSCRingBufferError.PopError 0), Lib.new 2) :=
  ⟨(C8_seq_error_atomicity (Lib.push (Lib.new 2) 7).2 5).1 (by decide),
    (C8_seq_error_atomicity (Lib.new 2) 5).2 (by decide)⟩

/-! ## C10 — pop overwrites the popped slot with the sentinel -/

/-- C10 (counterexample): the claim concludes that the popped value is
no longer resident in storage after the pop.  Pushing the sentinel value
itself and popping it leaves the popped value resident in slot 0. -/
theorem C10_sentinel_value_still_resident :
    (Lib.pop (Lib.push (Lib.new 2) Lib.SENTINEL_VALUE).2).1 = Except.ok Lib.SENTINEL_VALUE ∧
    ((Lib.pop (Lib.push (Lib.new 2) Lib.SENTINEL_VALUE).2).2).buffer.getD 0 0
      = Lib.SENTINEL_VALUE := by
  decide

/-- C10 (amended): a successful pop returns the value of slot
`read % capacity`, overwrites exactly that slot with
`SENTINEL_VALUE = 0xdeadc0de`, changes no other slot, and therefore the
popped slot no longer holds the popped value whenever that value differs
from the sentinel. -/
theorem C10_pop_writes_sentinel (s : Lib.SPSCRingBuffer)
    (h1 : Lib.empty s = false) (h2 : 1 ≤ Lib.capacity s) :
    (Lib.pop s).1 = Except.ok (s.buffer.getD (s.read % Lib.capacity s) 0) ∧
    ((Lib.pop s).2).buffer = s.buffer.set (s.read % Lib.capacity s) Lib.SENTINEL_VALUE ∧
    ((Lib.pop s).2).buffer.getD (s.read % Lib.capacity s) 0 = Lib.SENTINEL_VALUE ∧
    (∀ j, j ≠ s.read % Lib.capacity s →
      ((Lib.pop s).2).buffer.getD j 0 = s.buffer.getD j 0) ∧
    (s.buffer.getD (s.read % Lib.capacity s) 0 ≠ Lib.SENTINEL_VALUE →
      ((Lib.pop s).2).buffer.getD (s.read % Lib.capacity s) 0
        ≠ s.buffer.getD (s.read % Lib.capacity s) 0) := by
  have hidx : s.read % Lib.capacity s < s.buffer.length := Nat.mod_lt _ h2
  have hcond : ¬(Lib.empty s = true) := by simp [h1]
  simp only [Lib.pop, if_neg hcond]
  refine ⟨by trivial, by trivial, ?_, ?_, ?_⟩
  · exact getD_set_self _ _ _ _ hidx
  · intro j hj
    exact getD_set_ne _ _ _ _ _ (fun hh => hj hh.symm)
  · intro hne
    rw [getD_set_self _ _ _ _ hidx]
    exact fun hh => hne hh.symm

/-- C10 (witness): the amended theorem at the one-element capacity-2
state holding `5`, whose pop leaves the sentinel in slot 0. -/
theorem C10_pop_writes_sentinel_witness :
    (Lib.pop (Lib.push (Lib.new 2) 5).2).1 = Except.ok 5 ∧
    ((Lib.pop (Lib.push (Lib.new 2) 5).2).2).buffer.getD 0 0 = Lib.SENTINEL_VALUE ∧
    ((Lib.pop (Lib.push (Lib.new 2) 5).2).2).buffer.getD 1 0
      = (Lib.push (Lib.new 2) 5).2.buffer.getD 1 0 ∧
    ((Lib.pop (Lib.push (Lib.new 2) 5).2).2).buffer.getD 0 0 ≠ 5 := by
  have h := C10_pop_writes_sentinel (Lib.push (Lib.new 2) 5).2 (by decide) (by decide)
  have hidx : (Lib.push (Lib.new 2) 5).2.read % Lib.capacity (Lib.push (Lib.new 2) 5).2
      = 0 := by decide
  rw [hidx] at h
  have hold : (Lib.push (Lib.new 2) 5).2.buffer.getD 0 0 = 5 := by decide
  rw [hold] at h
  exact ⟨h.1, h.2.2.1, h.2.2.2.1 1 (by decide), h.2.2.2.2 (by decide)⟩

/-! ## C7 — range of the sequential model's cursors -/

/-- Capacity (the slot count) is preserved by every operation of the
sequential model. -/
theorem lib_step_cap (s : Lib.SPSCRingBuffer) (op : Lib.Op) :
    Lib.capacity (Lib.step s op) = Lib.capacity s := by
  cases op <;>
    simp only [Lib.step, Lib.push, Lib.pop, Lib.force_push] <;>
    repeat' split <;>
    simp [Lib.capacity]

/-- One operation keeps both cursors strictly below the fold modulus
`64 * capacity`. -/
theorem lib_step_cursor (s : Lib.SPSCRingBuffer) (op : Lib.Op)
    (h : 1 ≤ Lib.capacity s)
    (hr : s.read < 64 * Lib.capacity s) (hw : s.write < 64 * Lib.capacity s) :
    (Lib.step s op).read < 64 * Lib.capacity s ∧
    (Lib.step s op).write < 64 * Lib.capacity s := by
  have hpos : 0 < 64 * Lib.capacity s := by omega
  cases op with
  | push v =>
    simp only [Lib.step, Lib.push]
    split
    · exact ⟨hr, Nat.mod_lt _ hpos⟩
    · exact ⟨hr, hw⟩
  | pop =>
    simp only [Lib.step, Lib.pop]
    split
    · exact ⟨hr, hw⟩
    · exact ⟨Nat.mod_lt _ hpos, hw⟩
  | force_push v =>
    simp only [Lib.step, Lib.force_push]
    split <;>
      exact ⟨by first | exact Nat.mod_lt _ hpos | exact hr, Nat.mod_lt _ hpos⟩

/-- Running any operation sequence preserves the capacity and the cursor
bound `read, write < 64 * capacity`. -/
theorem lib_run_inv (ops : List Lib.Op) :
    ∀ (s : Lib.SPSCRingBuffer), 1 ≤ Lib.capacity s →
      s.read < 64 * Lib.capacity s → s.write < 64 * Lib.capacity s →
      Lib.capacity (Lib.run s ops) = Lib.capacity s ∧
      (Lib.run s ops).read < 64 * Lib.capacity s ∧
      (Lib.run s ops).write < 64 * Lib.capacity s := by
  induction ops with
  | nil =>
    intro s _ hr hw
    exact ⟨rfl, hr, hw⟩
  | cons op rest ih =>
    intro s hc hr hw
    have hcap := lib_step_cap s op
    have hcur := lib_step_cursor s op hc hr hw
    have hih := ih (Lib.step s op) (by omega) (by rw [hcap]; exact hcur.1)
      (by rw [hcap]; exact hcur.2)
    rw [hcap] at hih
    simpa [Lib.run, List.foldl_cons] using hih

/-- C7 (counterexample): after four `push; pop` rounds on a fresh
capacity-2 buffer both cursors are `4`, which is not below
`2 * capacity = 4`; the claim that cursors stay in `[0, 2*capacity)` is
false. -/
theorem C7_cursor_reaches_two_cap :
    (Lib.run (Lib.new 2) (pairOps 4)).write = 4 ∧
    ¬((Lib.run (Lib.new 2) (pairOps 4)).write
        < 2 * Lib.capacity (Lib.run (Lib.new 2) (pairOps 4))) := by
  decide

/-- C7 (amended): in every state reachable from a fresh buffer of
capacity `N ≥ 1`, the cursors lie in `[0, 64 * N)`: every cursor advance
wraps modulo `64 * N` (the code's `fold`), not modulo `2 * N`. -/
theorem C7_cursors_below_64cap (N : Nat) (hN : 1 ≤ N) (ops : List Lib.Op) :
    (Lib.run (Lib.new N) ops).read < 64 * N ∧
    (Lib.run (Lib.new N) ops).write < 64 * N := by
  have hc : Lib.capacity (Lib.new N) = N := by
    simp [Lib.capacity, Lib.new]
  have h := lib_run_inv ops (Lib.new N) (by rw [hc]; omega)
    (by rw [hc]; simp [Lib.new]; omega) (by rw [hc]; simp [Lib.new]; omega)
  rw [hc] at h
  exact ⟨h.2.1, h.2.2⟩

/-- C7 (witness): the amended bound evaluated on the four-round trace on
a capacity-2 buffer. -/
theorem C7_cursors_below_64cap_witness :
    (Lib.run (Lib.new 2) (pairOps 4)).read < 64 * 2 ∧
    (Lib.run (Lib.new 2) (pairOps 4)).write < 64 * 2 :=
  C7_cursors_below_64cap 2 (by omega) (pairOps 4)

/-! ## C2 — occupancy invariant of the lock-free engine -/

/-- The `capacity` field is never modified by the engine. -/
theorem spsc_step_cap (s : Spsc.SPSCRingBuffer) (op : Spsc.Op) :
    (Spsc.step s op).capacity = s.capacity := by
  cases op <;>
    simp only [Spsc.step, Spsc.push, Spsc.pop] <;>
    repeat' split <;>
    rfl

/-- One sequential engine operation keeps both cursors strictly below
the capacity. -/
theorem spsc_step_cursor (s : Spsc.SPSCRingBuffer) (op : Spsc.Op)
    (h : 1 ≤ s.capacity) (hr : s.read < s.capacity) (hw : s.write < s.capacity) :
    (Spsc.step s op).read < s.capacity ∧ (Spsc.step s op).write < s.capacity := by
  have hpos : 0 < s.capacity := h
  cases op with
  | push v =>
    simp only [Spsc.step, Spsc.push]
    split
    · exact ⟨hr, hw⟩
    · exact ⟨hr, Nat.mod_lt _ hpos⟩
  | pop =>
    simp only [Spsc.step, Spsc.pop]
    split
    · exact ⟨hr, hw⟩
    · exact ⟨Nat.mod_lt _ hpos, hw⟩

/-- Running any operation sequence on the engine preserves the capacity
field and the cursor bound `read, write < capacity`. -/
theorem spsc_run_inv (ops : List Spsc.Op) :
    ∀ (s : Spsc.SPSCRingBuffer), 1 ≤ s.capacity →
      s.read < s.capacity → s.write < s.capacity →
      (Spsc.run s ops).capacity = s.capacity ∧
      (Spsc.run s ops).read < s.capacity ∧
      (Spsc.run s ops).write < s.capacity := by
  induction ops with
  | nil =>
    intro s _ hr hw
    exact ⟨rfl, hr, hw⟩
  | cons op rest ih =>
    intro s hc hr hw
    have hcap := spsc_step_cap s op
    have hcur := spsc_step_cursor s op hc hr hw
    have hih := ih (Spsc.step s op) (by omega) (by rw [hcap]; exact hcur.1)
      (by rw [hcap]; exact hcur.2)
    rw [hcap] at hih
    simpa [Spsc.run, List.foldl_cons] using hih

/-- For in-range cursors, `push` hits its full test exactly when the
wraparound distance from `read` to `write` is `N - 1`. -/
theorem count_full_iff (N w r : Nat) (hw : w < N) (hr : r < N) :
    (w + 1) % N = r ↔ (w + N - r) % N = N - 1 := by
  rcases Nat.lt_or_ge (w + 1) N with h | h
  · rw [Nat.mod_eq_of_lt h]
    rcases le_or_lt r w with hrw | hrw
    · have he : w + N - r = N + (w - r) := by omega
      rw [he, Nat.add_mod_left, Nat.mod_eq_of_lt (by omega : w - r < N)]
      omega
    · rw [Nat.mod_eq_of_lt (by omega : w + N - r < N)]
      omega
  · have hw1 : w + 1 = N := by omega
    have he : w + N - r = N + (N - 1 - r) := by omega
    rw [hw1, Nat.mod_self, he, Nat.add_mod_left,
      Nat.mod_eq_of_lt (by omega : N - 1 - r < N)]
    omega

/-- C2: in every state the lock-free engine reaches from a fresh
capacity-`N` buffer by a sequence of pushes and pops executed
sequentially, the cursors are in range, the occupied count (wraparound
distance from `read` to `write` modulo `N`) is at most `N - 1`, and a
push fails with the `Full` error exactly when the count is `N - 1`. -/
theorem C2_spsc_count_invariant (N : Nat) (hN : 2 ≤ N) (ops : List Spsc.Op) (v : Nat) :
    (Spsc.run (Spsc.new N) ops).capacity = N ∧
    (Spsc.run (Spsc.new N) ops).read < N ∧
    (Spsc.run (Spsc.new N) ops).write < N ∧
    Spsc.count (Spsc.run (Spsc.new N) ops) ≤ N - 1 ∧
    ((Spsc.push (Spsc.run (Spsc.new N) ops) v).1
        = Except.error (Spsc.SPSCRingBufferError.PushError (Spsc.run (Spsc.new N) ops).write)
      ↔ Spsc.count (Spsc.run (Spsc.new N) ops) = N - 1) := by
  have hcnew : (Spsc.new N).capacity = N := rfl
  have h0 := spsc_run_inv ops (Spsc.new N) (by simp [Spsc.new]; omega)
    (by simp [Spsc.new]; omega) (by simp [Spsc.new]; omega)
  rw [hcnew] at h0
  revert h0
  generalize Spsc.run (Spsc.new N) ops = s
  intro h0
  obtain ⟨hcap, hr, hw⟩ := h0
  have hcount : Spsc.count s < N := by
    unfold Spsc.count
    rw [hcap]
    exact Nat.mod_lt _ (by omega)
  have hiff := count_full_iff N s.write s.read hw hr
  refine ⟨hcap, hr, hw, by omega, ?_⟩
  unfold Spsc.push Spsc.count
  rw [hcap]
  by_cases hfull : (s.write + 1) % N = s.read
  · simp only [hfull, beq_self_eq_true, if_true]
    simpa using hiff.mp hfull
  · have hbeq : ((s.write + 1) % N == s.read) = false := by
      simpa using hfull
    simp only [hbeq, Bool.false_eq_true, if_false]
    constructor
    · intro hcontr
      exact absurd hcontr (by simp)
    · intro hcnt
      exact absurd (hiff.mpr hcnt) hfull

/-- C2 (witness): the invariant evaluated after one push on a fresh
capacity-2 engine, where the count is `1 = N - 1` and a further push
fails. -/
theorem C2_spsc_count_invariant_witness :
    (Spsc.run (Spsc.new 2) [Spsc.Op.push 5]).capacity = 2 ∧
    (Spsc.run (Spsc.new 2) [Spsc.Op.push 5]).read < 2 ∧
    (Spsc.run (Spsc.new 2) [Spsc.Op.push 5]).write < 2 ∧
    Spsc.count (Spsc.run (Spsc.new 2) [Spsc.Op.push 5]) ≤ 2 - 1 ∧
    ((Spsc.push (Spsc.run (Spsc.new 2) [Spsc.Op.push 5]) 9).1
        = Except.error
            (Spsc.SPSCRingBufferError.PushError (Spsc.run (Spsc.new 2) [Spsc.Op.push 5]).write)
      ↔ Spsc.count (Spsc.run (Spsc.new 2) [Spsc.Op.push 5]) = 2 - 1) :=
  C2_spsc_count_invariant 2 (by omega) [Spsc.Op.push 5] 9

/-! ## Push/pop phase characterisations (no cursor wraparound) -/

/-- Pushing a list of values into the sequential model from a state with
`read = 0` and enough free slots: every push succeeds, `write` advances
by the number of values, slot `write + i` receives the `i`-th value, and
slots below the initial `write` are untouched. -/
theorem lib_push_run (vs : List Nat) :
    ∀ (s : Lib.SPSCRingBuffer), s.read = 0 →
      s.write + vs.length + 1 ≤ Lib.capacity s →
      (Lib.pushAll s vs).1 = true ∧
      Lib.capacity (Lib.pushAll s vs).2 = Lib.capacity s ∧
      (Lib.pushAll s vs).2.read = 0 ∧
      (Lib.pushAll s vs).2.write = s.write + vs.length ∧
      (∀ i, i < vs.length →
        (Lib.pushAll s vs).2.buffer.getD (s.write + i) 0 = vs.getD i 0) ∧
      (∀ j, j < s.write →
        (Lib.pushAll s vs).2.buffer.getD j 0 = s.buffer.getD j 0) := by
  induction vs with
  | nil =>
    intro s hr _
    refine ⟨rfl, rfl, hr, by simp [Lib.pushAll], ?_, ?_⟩
    · intro i hi
      exact absurd hi (by simp)
    · intro j _
      rfl
  | cons v vs ih =>
    intro s hr hroom
    have hcap1 : 1 ≤ Lib.capacity s := by
      simp only [List.length_cons] at hroom
      omega
    have hwlt : s.write < Lib.capacity s := by
      simp only [List.length_cons] at hroom
      omega
    have hsize : Lib.size s = s.write := by
      unfold Lib.size Lib.wrapped_distance
      rw [if_pos (hr ▸ Nat.zero_le s.write), hr, Nat.sub_zero]
      exact Nat.mod_eq_of_lt hwlt
    have hfull : Lib.full s = false := by
      simp only [Lib.full, Lib.free, hsize, beq_eq_false_iff_ne, ne_eq]
      simp only [List.length_cons] at hroom
      omega
    have hidx : s.write % Lib.capacity s = s.write := Nat.mod_eq_of_lt hwlt
    have hfold : Lib.fold s (s.write + 1) = s.write + 1 := by
      unfold Lib.fold
      exact Nat.mod_eq_of_lt (by omega)
    have hpush : Lib.push s v = (true,
        { s with buffer := s.buffer.set s.write v, write := s.write + 1 }) := by
      simp [Lib.push, hfull, hidx, hfold]
    have hlen : (s.buffer.set s.write v).length = s.buffer.length :=
      List.length_set s.buffer s.write v
    have hih := ih { s with buffer := s.buffer.set s.write v, write := s.write + 1 }
      hr (by
        simp only [Lib.capacity, hlen]
        simp only [Lib.capacity, List.length_cons] at hroom
        omega)
    simp only [Lib.capacity, hlen] at hih
    obtain ⟨hflag, hcap, hread, hwrite, hchar, hold⟩ := hih
    have hstep : Lib.pushAll s (v :: vs)
        = ((Lib.push s v).1 && (Lib.pushAll (Lib.push s v).2 vs).1,
            (Lib.pushAll (Lib.push s v).2 vs).2) := rfl
    simp only [hstep, hpush]
    refine ⟨by simpa using hflag, by simpa [Lib.capacity] using hcap, hread, ?_, ?_, ?_⟩
    · simp only [hwrite, List.length_cons]
      omega
    · intro i hi
      cases i with
      | zero =>
        have h0 := hold s.write (by omega)
        have hself : (s.buffer.set s.write v).getD s.write 0 = v :=
          getD_set_self s.buffer s.write v 0 (by simpa [Lib.capacity] using hwlt)
        rw [hself] at h0
        simpa using h0
      | succ i2 =>
        have hc := hchar i2 (by simpa using hi)
        have hidx2 : s.write + (i2 + 1) = s.write + 1 + i2 := by omega
        simp only [hidx2, hc, List.getD_cons_succ]
    · intro j hj
      have hc := hold j (by omega)
      rw [hc]
      exact getD_set_ne s.buffer s.write j v 0 (by omega)

/-- Popping `k` values from the sequential model when at least `k`
values are pending and no cursor folds: each pop succeeds and returns
the slot at the successive read positions, and `read` advances by `k`. -/
theorem lib_pop_run (k : Nat) :
    ∀ (s : Lib.SPSCRingBuffer), 1 ≤ Lib.capacity s →
      s.read + k ≤ s.write → s.write - s.read ≤ Lib.capacity s →
      s.write < 64 * Lib.capacity s →
      (Lib.popN s k).1 = (List.range k).map
        (fun i => Except.ok (s.buffer.getD ((s.read + i) % Lib.capacity s) 0)) ∧
      Lib.capacity (Lib.popN s k).2 = Lib.capacity s ∧
      (Lib.popN s k).2.read = s.read + k ∧
      (Lib.popN s k).2.write = s.write := by
  induction k with
  | zero =>
    intro s _ _ _ _
    exact ⟨by simp [Lib.popN], rfl, by simp [Lib.popN], rfl⟩
  | succ k ih =>
    intro s hcap hk hdist hw
    have hlt : s.read < s.write := by omega
    have hempty : Lib.empty s = false := by
      simp only [Lib.empty, beq_eq_false_iff_ne, ne_eq]
      omega
    have hfold : Lib.fold s (s.read + 1) = s.read + 1 := by
      unfold Lib.fold
      exact Nat.mod_eq_of_lt (by omega)
    have hcond : ¬(Lib.empty s = true) := by simp [hempty]
    have hpop : Lib.pop s = (Except.ok (s.buffer.getD (s.read % Lib.capacity s) 0),
        { s with buffer := s.buffer.set (s.read % Lib.capacity s) Lib.SENTINEL_VALUE,
                 read := s.read + 1 }) := by
      simp [Lib.pop, if_neg hcond, hfold]
    have hstep : Lib.popN s (k + 1)
        = ((Lib.pop s).1 :: (Lib.popN (Lib.pop s).2 k).1, (Lib.popN (Lib.pop s).2 k).2) := rfl
    simp only [hstep, hpop]
    set t : Lib.SPSCRingBuffer := { s with
        buffer := s.buffer.set (s.read % Lib.capacity s) Lib.SENTINEL_VALUE,
        read := s.read + 1 } with ht
    have htread : t.read = s.read + 1 := by rw [ht]
    have htwrite : t.write = s.write := by rw [ht]
    have htbuf : t.buffer = s.buffer.set (s.read % Lib.capacity s) Lib.SENTINEL_VALUE := by
      rw [ht]
    have hcapt : Lib.capacity t = Lib.capacity s := by
      simp only [Lib.capacity, htbuf, List.length_set]
    have hih := ih t (by rw [hcapt]; exact hcap) (by rw [htread, htwrite]; omega)
      (by rw [htread, htwrite, hcapt]; omega) (by rw [htwrite, hcapt]; exact hw)
    obtain ⟨hvals, hcap2, hread2, hwrite2⟩ := hih
    rw [htread, hcapt, htbuf] at hvals
    refine ⟨?_, by rw [hcap2, hcapt], by rw [hread2, htread]; omega,
      by rw [hwrite2, htwrite]⟩
    simp only [hvals, List.range_succ_eq_map, List.map_cons, List.map_map, Nat.add_zero]
    congr 1
    apply List.map_congr_left
    intro i hi
    have hik : i < k := List.mem_range.mp hi
    have hne : (s.read + 1 + i) % Lib.capacity s ≠ s.read % Lib.capacity s := by
      have hadd := add_mod_ne s.read (1 + i) (Lib.capacity s) (by omega) (by omega)
      have he : s.read + (1 + i) = s.read + 1 + i := by omega
      rw [he] at hadd
      exact hadd
    simp only [Function.comp_apply]
    rw [getD_set_ne _ _ _ _ _ (fun hh => hne hh.symm)]
    have he2 : s.read + Nat.succ i = s.read + 1 + i := by omega
    rw [he2]

/-- Pushing a list of values into the lock-free engine from a state with
`read = 0` and enough free slots: every push succeeds and the engine's
slots receive the values in order. -/
theorem spsc_push_run (vs : List Nat) :
    ∀ (s : Spsc.SPSCRingBuffer), s.read = 0 → s.buffer.length = s.capacity →
      s.write + vs.length + 1 ≤ s.capacity →
      (Spsc.pushAll s vs).1 = true ∧
      (Spsc.pushAll s vs).2.capacity = s.capacity ∧
      (Spsc.pushAll s vs).2.buffer.length = s.capacity ∧
      (Spsc.pushAll s vs).2.read = 0 ∧
      (Spsc.pushAll s vs).2.write = s.write + vs.length ∧
      (∀ i, i < vs.length →
        (Spsc.pushAll s vs).2.buffer.getD (s.write + i) 0 = vs.getD i 0) ∧
      (∀ j, j < s.write →
        (Spsc.pushAll s vs).2.buffer.getD j 0 = s.buffer.getD j 0) := by
  induction vs with
  | nil =>
    intro s hr hlen _
    refine ⟨rfl, rfl, hlen, hr, by simp [Spsc.pushAll], ?_, ?_⟩
    · intro i hi
      exact absurd hi (by simp)
    · intro j _
      rfl
  | cons v vs ih =>
    intro s hr hlen hroom
    have hwlt : s.write + 1 < s.capacity := by
      simp only [List.length_cons] at hroom
      omega
    have hnext : (s.write + 1) % s.capacity = s.write + 1 := Nat.mod_eq_of_lt hwlt
    have hne : ¬(((s.write + 1) % s.capacity == s.read) = true) := by
      rw [hnext, hr]
      simp
    have hpush : Spsc.push s v = (Except.ok s.write,
        { s with buffer := s.buffer.set s.write v, write := (s.write + 1) % s.capacity }) := by
      simp only [Spsc.push]
      rw [if_neg hne]
    have hlen2 : (s.buffer.set s.write v).length = s.capacity := by
      rw [List.length_set]
      exact hlen
    have hih := ih { s with
        buffer := s.buffer.set s.write v,
        write := (s.write + 1) % s.capacity }
      hr hlen2 (by
        show (s.write + 1) % s.capacity + vs.length + 1 ≤ s.capacity
        rw [hnext]
        simp only [List.length_cons] at hroom
        omega)
    obtain ⟨hflag, hcap, hlen3, hread, hwrite, hchar, hold⟩ := hih
    have hstep : Spsc.pushAll s (v :: vs)
        = ((Spsc.push s v).1.toOption.isSome && (Spsc.pushAll (Spsc.push s v).2 vs).1,
            (Spsc.pushAll (Spsc.push s v).2 vs).2) := rfl
    simp only [hstep, hpush]
    refine ⟨by simp only [Bool.and_eq_true]; exact ⟨rfl, hflag⟩, hcap, hlen3, hread, ?_, ?_, ?_⟩
    · rw [hwrite]
      show (s.write + 1) % s.capacity + vs.length = s.write + (v :: vs).length
      rw [hnext]
      simp only [List.length_cons]
      omega
    · intro i hi
      cases i with
      | zero =>
        have h0 := hold s.write (by
          show s.write < (s.write + 1) % s.capacity
          rw [hnext]
          omega)
        have hself : (s.buffer.set s.write v).getD s.write 0 = v :=
          getD_set_self s.buffer s.write v 0 (by omega)
        rw [hself] at h0
        simpa using h0
      | succ i2 =>
        have hc := hchar i2 (by simpa using hi)
        have hidx2 : s.write + (i2 + 1) = s.write + 1 + i2 := by omega
        have hc2 : (s.write + 1) % s.capacity + i2 = s.write + 1 + i2 := by
          rw [hnext]
        rw [hc2] at hc
        simp only [hidx2, hc, List.getD_cons_succ]
    · intro j hj
      have hc := hold j (by
        show j < (s.write + 1) % s.capacity
        rw [hnext]
        omega)
      rw [hc]
      exact getD_set_ne s.buffer s.write j v 0 (by omega)

/-- Popping `k` pending values from the lock-free engine with in-range
cursors: each pop succeeds, returning the successive read positions and
slot values; the slots themselves are not modified. -/
theorem spsc_pop_run (k : Nat) :
    ∀ (s : Spsc.SPSCRingBuffer), s.read + k ≤ s.write → s.write < s.capacity →
      (Spsc.popN s k).1 = (List.range k).map
        (fun i => some (s.read + i, s.buffer.getD (s.read + i) 0)) ∧
      (Spsc.popN s k).2.capacity = s.capacity ∧
      (Spsc.popN s k).2.buffer = s.buffer ∧
      (Spsc.popN s k).2.read = s.read + k ∧
      (Spsc.popN s k).2.write = s.write := by
  induction k with
  | zero =>
    intro s _ _
    exact ⟨by simp [Spsc.popN], rfl, rfl, by simp [Spsc.popN], rfl⟩
  | succ k ih =>
    intro s hk hw
    have hlt : s.read < s.write := by omega
    have hne : ¬(Spsc.emptyIdx s.read s.write = true) := by
      simp only [Spsc.emptyIdx, beq_iff_eq]
      omega
    have hread1 : (s.read + 1) % s.capacity = s.read + 1 :=
      Nat.mod_eq_of_lt (by omega)
    have hpop : Spsc.pop s = (some (s.read, s.buffer.getD s.read 0),
        { s with read := s.read + 1 }) := by
      simp only [Spsc.pop]
      rw [if_neg hne, hread1]
    have hih := ih { s with read := s.read + 1 } (by simpa using by omega) hw
    obtain ⟨hvals, hcap2, hbuf, hread, hwrite⟩ := hih
    have hstep : Spsc.popN s (k + 1)
        = ((Spsc.pop s).1 :: (Spsc.popN (Spsc.pop s).2 k).1, (Spsc.popN (Spsc.pop s).2 k).2) := rfl
    simp only [hstep, hpop]
    have hrr : ({ s with read := s.read + 1 } : Spsc.SPSCRingBuffer).read = s.read + 1 := rfl
    have hrb : ({ s with read := s.read + 1 } : Spsc.SPSCRingBuffer).buffer = s.buffer := rfl
    rw [hrr, hrb] at hvals
    refine ⟨?_, hcap2, hbuf, by rw [hread, hrr]; omega, hwrite⟩
    simp only [hvals, List.range_succ_eq_map, List.map_cons, List.map_map, Nat.add_zero]
    congr 1
    apply List.map_congr_left
    intro i hi
    simp only [Function.comp_apply]
    have he2 : s.read + Nat.succ i = s.read + 1 + i := by omega
    rw [he2]

/-! ## C3 — FIFO order for both models -/

/-- C3: pushing `vs` (of length at most the usable capacity `N - 1`)
into an empty buffer with no interleaved pops succeeds entirely, and the
following `|vs|` pops succeed and yield exactly `vs` in order, leaving
the buffer empty — for the lock-free engine and for the sequential
model. -/
theorem C3_fifo_order (N : Nat) (vs : List Nat) (hN : 2 ≤ N) (hk : vs.length ≤ N - 1) :
    ((Spsc.pushAll (Spsc.new N) vs).1 = true ∧
      (Spsc.popN (Spsc.pushAll (Spsc.new N) vs).2 vs.length).1.map (fun o => o.map Prod.snd)
        = vs.map (fun v => some v) ∧
      ((Spsc.popN (Spsc.pushAll (Spsc.new N) vs).2 vs.length).2).empty = true) ∧
    ((Lib.pushAll (Lib.new N) vs).1 = true ∧
      (Lib.popN (Lib.pushAll (Lib.new N) vs).2 vs.length).1 = vs.map Except.ok ∧
      Lib.empty (Lib.popN (Lib.pushAll (Lib.new N) vs).2 vs.length).2 = true) := by
  constructor
  · have h1 := spsc_push_run vs (Spsc.new N) rfl (by simp [Spsc.new])
      (by simp [Spsc.new]; omega)
    obtain ⟨hflag, hcap, _, hread, hwrite, hchar, _⟩ := h1
    have hc0 : (Spsc.new N).capacity = N := rfl
    have hw0 : (Spsc.new N).write = 0 := rfl
    simp only [hc0, hw0, Nat.zero_add] at hcap hwrite hchar
    have h2 := spsc_pop_run vs.length (Spsc.pushAll (Spsc.new N) vs).2
      (by rw [hread, hwrite]; omega) (by rw [hwrite, hcap]; omega)
    obtain ⟨hvals, _, _, hread2, hwrite2⟩ := h2
    simp only [hread, Nat.zero_add] at hvals
    refine ⟨hflag, ?_, ?_⟩
    · rw [hvals, List.map_map]
      have hmid : (List.range vs.length).map
          ((fun o => Option.map Prod.snd o) ∘ fun i =>
            some (i, (Spsc.pushAll (Spsc.new N) vs).2.buffer.getD i 0))
          = (List.range vs.length).map (fun i => some (vs.getD i 0)) := by
        apply List.map_congr_left
        intro i hi
        have hilt : i < vs.length := List.mem_range.mp hi
        simp only [Function.comp_apply]
        rw [hchar i hilt]
        rfl
      rw [hmid, range_map_getD_f vs 0 (fun v => some v)]
    · simp only [Spsc.SPSCRingBuffer.empty, hread2, hwrite2, hread, hwrite, Nat.zero_add]
      simp
  · have h3 := lib_push_run vs (Lib.new N) rfl (by simp [Lib.new, Lib.capacity]; omega)
    obtain ⟨hflagL, hcapL, hreadL, hwriteL, hcharL, _⟩ := h3
    have hc0L : Lib.capacity (Lib.new N) = N := by simp [Lib.new, Lib.capacity]
    have hw0L : (Lib.new N).write = 0 := rfl
    simp only [hc0L, hw0L, Nat.zero_add] at hcapL hwriteL hcharL
    have h4 := lib_pop_run vs.length (Lib.pushAll (Lib.new N) vs).2
      (by rw [hcapL]; omega) (by rw [hreadL, hwriteL]; omega)
      (by rw [hreadL, hwriteL, hcapL]; omega) (by rw [hwriteL, hcapL]; omega)
    obtain ⟨hvalsL, _, hread2L, hwrite2L⟩ := h4
    simp only [hreadL, hcapL, Nat.zero_add] at hvalsL
    refine ⟨hflagL, ?_, ?_⟩
    · rw [hvalsL]
      have hmid : (List.range vs.length).map
          (fun i => Except.ok ((Lib.pushAll (Lib.new N) vs).2.buffer.getD (i % N) 0)
            : Nat → Except Lib.SPSCRingBufferError Nat)
          = (List.range vs.length).map (fun i => Except.ok (vs.getD i 0)) := by
        apply List.map_congr_left
        intro i hi
        have hilt : i < vs.length := List.mem_range.mp hi
        rw [Nat.mod_eq_of_lt (by omega), hcharL i hilt]
      rw [hmid, range_map_getD_f vs 0 Except.ok]
    · simp only [Lib.empty, hread2L, hwrite2L, hreadL, hwriteL, Nat.zero_add]
      simp

/-- C3 (witness): capacity 3, pushing `[4, 5]` then popping twice on
both models. -/
theorem C3_fifo_order_witness :
    ((Spsc.pushAll (Spsc.new 3) [4, 5]).1 = true ∧
      (Spsc.popN (Spsc.pushAll (Spsc.new 3) [4, 5]).2 [4, 5].length).1.map
          (fun o => o.map Prod.snd)
        = [4, 5].map (fun v => some v) ∧
      ((Spsc.popN (Spsc.pushAll (Spsc.new 3) [4, 5]).2 [4, 5].length).2).empty = true) ∧
    ((Lib.pushAll (Lib.new 3) [4, 5]).1 = true ∧
      (Lib.popN (Lib.pushAll (Lib.new 3) [4, 5]).2 [4, 5].length).1 = [4, 5].map Except.ok ∧
      Lib.empty (Lib.popN (Lib.pushAll (Lib.new 3) [4, 5]).2 [4, 5].length).2 = true) :=
  C3_fifo_order 3 [4, 5] (by omega) (by norm_num)

/-! ## C6 — usable capacity of the sequential model -/

/-- C6 (counterexample): the claim asserts the sequential model reaches
`N` elements via `N` successful pushes from empty.  With `N = 2`, the
second push already fails: only one element is ever stored. -/
theorem C6_second_push_fails :
    (Lib.pushAll (Lib.new 2) [7, 8]).1 = false ∧
    Lib.size (Lib.pushAll (Lib.new 2) [7, 8]).2 = 1 := by
  decide

/-- C6 (amended): the sequential model, like the lock-free engine,
reserves one slot: from an empty buffer of capacity `N ≥ 2`, any `N - 1`
pushes all succeed and produce a state of size `N - 1` that is `full()`,
and a further push returns `false` and changes nothing. -/
theorem C6_seq_usable_capacity (N : Nat) (hN : 2 ≤ N) (vs : List Nat)
    (hlen : vs.length = N - 1) (v : Nat) :
    (Lib.pushAll (Lib.new N) vs).1 = true ∧
    Lib.size (Lib.pushAll (Lib.new N) vs).2 = N - 1 ∧
    Lib.full (Lib.pushAll (Lib.new N) vs).2 = true ∧
    Lib.push (Lib.pushAll (Lib.new N) vs).2 v = (false, (Lib.pushAll (Lib.new N) vs).2) := by
  have h3 := lib_push_run vs (Lib.new N) rfl (by simp [Lib.new, Lib.capacity]; omega)
  obtain ⟨hflagL, hcapL, hreadL, hwriteL, _, _⟩ := h3
  have hc0L : Lib.capacity (Lib.new N) = N := by simp [Lib.new, Lib.capacity]
  have hw0L : (Lib.new N).write = 0 := rfl
  simp only [hc0L, hw0L, Nat.zero_add, hlen] at hcapL hwriteL
  have hsize : Lib.size (Lib.pushAll (Lib.new N) vs).2 = N - 1 := by
    unfold Lib.size Lib.wrapped_distance
    rw [hreadL, hwriteL, hcapL, if_pos (Nat.zero_le _), Nat.sub_zero,
      Nat.mod_eq_of_lt (by omega)]
  have hfull : Lib.full (Lib.pushAll (Lib.new N) vs).2 = true := by
    simp only [Lib.full, Lib.free, hsize, hcapL, beq_iff_eq]
    omega
  refine ⟨hflagL, hsize, hfull, ?_⟩
  simp [Lib.push, hfull]

/-- C6 (witness): with `N = 3`, both pushes of `[7, 8]` succeed, the
state is full at size 2, and a third push is rejected unchanged. -/
theorem C6_seq_usable_capacity_witness :
    (Lib.pushAll (Lib.new 3) [7, 8]).1 = true ∧
    Lib.size (Lib.pushAll (Lib.new 3) [7, 8]).2 = 3 - 1 ∧
    Lib.full (Lib.pushAll (Lib.new 3) [7, 8]).2 = true ∧
    Lib.push (Lib.pushAll (Lib.new 3) [7, 8]).2 9
      = (false, (Lib.pushAll (Lib.new 3) [7, 8]).2) :=
  C6_seq_usable_capacity 3 (by omega) [7, 8] (by norm_num) 9

/-! ## C9 — round trip on both models -/

/-- C9: on each model with capacity at least 2, pushing `v` into an
empty buffer (equal in-range cursors) succeeds, an immediate pop yields
exactly `v`, and the buffer is empty again. -/
theorem C9_round_trip (v : Nat) :
    (∀ (s : Spsc.SPSCRingBuffer), 2 ≤ s.capacity → s.buffer.length = s.capacity →
      s.read < s.capacity → s.read = s.write →
      (Spsc.push s v).1 = Except.ok s.write ∧
      (Spsc.pop (Spsc.push s v).2).1 = some (s.read, v) ∧
      ((Spsc.pop (Spsc.push s v).2).2).empty = true) ∧
    (∀ (t : Lib.SPSCRingBuffer), 2 ≤ Lib.capacity t → t.read = t.write →
      t.write < 64 * Lib.capacity t →
      (Lib.push t v).1 = true ∧
      (Lib.pop (Lib.push t v).2).1 = Except.ok v ∧
      Lib.empty ((Lib.pop (Lib.push t v).2).2) = true) := by
  constructor
  · intro s hcap hlen hr hrw
    have hw : s.write < s.capacity := hrw ▸ hr
    have hnw : (s.write + 1) % s.capacity ≠ s.read := by
      intro h
      rcases Nat.lt_or_ge (s.write + 1) s.capacity with h1 | h1
      · rw [Nat.mod_eq_of_lt h1] at h
        omega
      · have h2 : s.write + 1 = s.capacity := by omega
        rw [h2, Nat.mod_self] at h
        omega
    have hbeq : ¬(((s.write + 1) % s.capacity == s.read) = true) := by
      simpa using hnw
    have hpush : Spsc.push s v = (Except.ok s.write,
        { s with buffer := s.buffer.set s.write v, write := (s.write + 1) % s.capacity }) := by
      simp only [Spsc.push]
      rw [if_neg hbeq]
    have hnpop : ¬(Spsc.emptyIdx s.read ((s.write + 1) % s.capacity) = true) := by
      simp only [Spsc.emptyIdx, beq_iff_eq]
      exact fun hh => hnw hh.symm
    rw [hpush]
    have hval : (s.buffer.set s.write v).getD s.read 0 = v := by
      rw [hrw]
      exact getD_set_self s.buffer s.write v 0 (by omega)
    refine ⟨rfl, ?_, ?_⟩
    · simp only [Spsc.pop]
      rw [if_neg hnpop]
      simp only [hval]
    · simp only [Spsc.pop]
      rw [if_neg hnpop]
      simp only [Spsc.SPSCRingBuffer.empty, hrw]
      simp
  · intro t hcap hrw hw
    have hsize : Lib.size t = 0 := by
      unfold Lib.size Lib.wrapped_distance
      rw [if_pos (le_of_eq hrw), hrw]
      simp
    have hfull : Lib.full t = false := by
      simp only [Lib.full, Lib.free, hsize, beq_eq_false_iff_ne, ne_eq]
      omega
    have hpush : Lib.push t v = (true,
        { t with buffer := t.buffer.set (t.write % Lib.capacity t) v,
                 write := Lib.fold t (t.write + 1) }) := by
      simp [Lib.push, hfull]
    have hfoldne : Lib.fold t (t.write + 1) ≠ t.read := by
      unfold Lib.fold
      rw [hrw]
      rcases Nat.lt_or_ge (t.write + 1) (64 * Lib.capacity t) with h1 | h1
      · rw [Nat.mod_eq_of_lt h1]
        omega
      · have h2 : t.write + 1 = 64 * Lib.capacity t := by omega
        rw [h2, Nat.mod_self]
        omega
    rw [hpush]
    set t1 : Lib.SPSCRingBuffer := { t with
        buffer := t.buffer.set (t.write % Lib.capacity t) v,
        write := Lib.fold t (t.write + 1) } with ht1
    have ht1read : t1.read = t.read := by rw [ht1]
    have ht1write : t1.write = Lib.fold t (t.write + 1) := by rw [ht1]
    have ht1buf : t1.buffer = t.buffer.set (t.write % Lib.capacity t) v := by rw [ht1]
    have hcapt1 : Lib.capacity t1 = Lib.capacity t := by
      simp only [Lib.capacity, ht1buf, List.length_set]
    have hempty1 : Lib.empty t1 = false := by
      simp only [Lib.empty, ht1read, ht1write, beq_eq_false_iff_ne, ne_eq]
      exact hfoldne
    have hcond1 : ¬(Lib.empty t1 = true) := by simp [hempty1]
    have hval : t1.buffer.getD (t1.read % Lib.capacity t1) 0 = v := by
      rw [ht1buf, ht1read, hcapt1, hrw]
      exact getD_set_self t.buffer (t.write % Lib.capacity t) v 0
        (Nat.mod_lt _ (by omega))
    have hpop : Lib.pop t1 = (Except.ok v,
        { t1 with buffer := t1.buffer.set (t1.read % Lib.capacity t1) Lib.SENTINEL_VALUE,
                  read := Lib.fold t1 (t1.read + 1) }) := by
      simp only [Lib.pop, if_neg hcond1, hval]
    rw [hpop]
    refine ⟨rfl, rfl, ?_⟩
    simp only [Lib.empty, ht1write, ht1read]
    have hfold2 : Lib.fold t1 (t.read + 1) = Lib.fold t (t.write + 1) := by
      unfold Lib.fold
      rw [hcapt1, hrw]
    simp only [hfold2]
    simp

/-- C9 (witness): the round trip at `v = 5` on fresh capacity-2
buffers of both models. -/
theorem C9_round_trip_witness :
    ((Spsc.push (Spsc.new 2) 5).1 = Except.ok (Spsc.new 2).write ∧
      (Spsc.pop (Spsc.push (Spsc.new 2) 5).2).1 = some ((Spsc.new 2).read, 5) ∧
      ((Spsc.pop (Spsc.push (Spsc.new 2) 5).2).2).empty = true) ∧
    ((Lib.push (Lib.new 2) 5).1 = true ∧
      (Lib.pop (Lib.push (Lib.new 2) 5).2).1 = Except.ok 5 ∧
      Lib.empty ((Lib.pop (Lib.push (Lib.new 2) 5).2).2) = true) :=
  ⟨(C9_round_trip 5).1 (Spsc.new 2) (by decide) (by decide) (by decide) (by decide),
    (C9_round_trip 5).2 (Lib.new 2) (by decide) (by decide) (by decide)⟩

/-! ## C4 — retention policy of `force_push` -/

/-- While the buffer is not yet full, `force_push` behaves exactly like
a successful `push`: the linear filling phase. -/
theorem lib_force_run_linear (vs : List Nat) :
    ∀ (s : Lib.SPSCRingBuffer), s.read = 0 →
      s.write + vs.length + 1 ≤ Lib.capacity s →
      Lib.capacity (Lib.forceAll s vs) = Lib.capacity s ∧
      (Lib.forceAll s vs).read = 0 ∧
      (Lib.forceAll s vs).write = s.write + vs.length ∧
      (∀ i, i < vs.length →
        (Lib.forceAll s vs).buffer.getD (s.write + i) 0 = vs.getD i 0) ∧
      (∀ j, j < s.write →
        (Lib.forceAll s vs).buffer.getD j 0 = s.buffer.getD j 0) := by
  induction vs with
  | nil =>
    intro s hr _
    refine ⟨rfl, hr, by simp [Lib.forceAll], ?_, ?_⟩
    · intro i hi
      exact absurd hi (by simp)
    · intro j _
      rfl
  | cons v vs ih =>
    intro s hr hroom
    have hwlt : s.write < Lib.capacity s := by
      simp only [List.length_cons] at hroom
      omega
    have hsize : Lib.size s = s.write := by
      unfold Lib.size Lib.wrapped_distance
      rw [if_pos (hr ▸ Nat.zero_le s.write), hr, Nat.sub_zero]
      exact Nat.mod_eq_of_lt hwlt
    have hfull : Lib.full s = false := by
      simp only [Lib.full, Lib.free, hsize, beq_eq_false_iff_ne, ne_eq]
      simp only [List.length_cons] at hroom
      omega
    have hidx : s.write % Lib.capacity s = s.write := Nat.mod_eq_of_lt hwlt
    have hfold : Lib.fold s (s.write + 1) = s.write + 1 := by
      unfold Lib.fold
      exact Nat.mod_eq_of_lt (by omega)
    have hforce : Lib.force_push s v
        = { s with buffer := s.buffer.set s.write v, write := s.write + 1 } := by
      simp [Lib.force_push, hfull, hidx, hfold]
    have hlen : (s.buffer.set s.write v).length = s.buffer.length :=
      List.length_set s.buffer s.write v
    have hih := ih { s with buffer := s.buffer.set s.write v, write := s.write + 1 }
      hr (by
        simp only [Lib.capacity, hlen]
        simp only [Lib.capacity, List.length_cons] at hroom
        omega)
    simp only [Lib.capacity, hlen] at hih
    obtain ⟨hcap, hread, hwrite, hchar, hold⟩ := hih
    have hstep : Lib.forceAll s (v :: vs) = Lib.forceAll (Lib.force_push s v) vs := rfl
    simp only [hstep, hforce]
    refine ⟨by simpa [Lib.capacity] using hcap, hread, ?_, ?_, ?_⟩
    · simp only [hwrite, List.length_cons]
      omega
    · intro i hi
      cases i with
      | zero =>
        have h0 := hold s.write (by omega)
        have hself : (s.buffer.set s.write v).getD s.write 0 = v :=
          getD_set_self s.buffer s.write v 0 (by simpa [Lib.capacity] using hwlt)
        rw [hself] at h0
        simpa using h0
      | succ i2 =>
        have hc := hchar i2 (by simpa using hi)
        have hidx2 : s.write + (i2 + 1) = s.write + 1 + i2 := by omega
        simp only [hidx2, hc, List.getD_cons_succ]
    · intro j hj
      have hc := hold j (by omega)
      rw [hc]
      exact getD_set_ne s.buffer s.write j v 0 (by omega)

/-- The steady state of a pure `force_push` run on a fresh buffer of
capacity `C`: after `k ≥ C - 1` force-pushes of `vs` (with no cursor
fold, `k < 64 * C`), the cursors are `read = k - (C - 1)`, `write = k`,
and the slot holding position `k - 1 - m` (for `m < C - 1`) contains the
value force-pushed at step `k - 1 - m` — the last `C - 1` values. -/
theorem lib_force_inv (C : Nat) (hC : 2 ≤ C) :
    ∀ (k : Nat) (hk : C - 1 ≤ k), k < 64 * C → ∀ (vs : List Nat), vs.length = k →
      Lib.capacity (Lib.forceAll (Lib.new C) vs) = C ∧
      (Lib.forceAll (Lib.new C) vs).read = k - (C - 1) ∧
      (Lib.forceAll (Lib.new C) vs).write = k ∧
      (∀ m, m < C - 1 →
        (Lib.forceAll (Lib.new C) vs).buffer.getD ((k - 1 - m) % C) 0
          = vs.getD (k - 1 - m) 0) := by
  intro k hk
  induction k, hk using Nat.le_induction with
  | base =>
    intro _ vs hlen
    have hlin := lib_force_run_linear vs (Lib.new C) rfl (by
      simp [Lib.new, Lib.capacity]
      omega)
    obtain ⟨hcap, hread, hwrite, hchar, _⟩ := hlin
    have hc0 : Lib.capacity (Lib.new C) = C := by simp [Lib.new, Lib.capacity]
    have hw0 : (Lib.new C).write = 0 := rfl
    simp only [hc0, hw0, Nat.zero_add, hlen] at hcap hwrite hchar
    refine ⟨hcap, by rw [hread]; omega, by rw [hwrite], ?_⟩
    intro m hm
    have hlt : C - 1 - 1 - m < C := by omega
    have hidx : (C - 1 - 1 - m) % C = C - 1 - 1 - m := Nat.mod_eq_of_lt hlt
    rw [hidx]
    exact hchar (C - 1 - 1 - m) (by omega)
  | succ n hn ih =>
    intro hlt vs hlen
    rcases List.eq_nil_or_concat vs with hnil | ⟨vs0, a, hcc⟩
    · rw [hnil] at hlen
      simp at hlen
    subst hcc
    have hlen0 : vs0.length = n := by
      simp only [List.concat_eq_append, List.length_append, List.length_cons,
        List.length_nil] at hlen
      omega
    obtain ⟨hcap0, hread0, hwrite0, hchar0⟩ := ih (by omega) vs0 hlen0
    have hsplit : Lib.forceAll (Lib.new C) (vs0.concat a)
        = Lib.force_push (Lib.forceAll (Lib.new C) vs0) a := by
      rw [List.concat_eq_append, Lib.forceAll, List.foldl_append]
      rfl
    rw [hsplit]
    revert hcap0 hread0 hwrite0 hchar0
    generalize Lib.forceAll (Lib.new C) vs0 = s0
    intro hcap0 hread0 hwrite0 hchar0
    have hlenb : s0.buffer.length = C := hcap0
    have hsize0 : Lib.size s0 = C - 1 := by
      unfold Lib.size Lib.wrapped_distance
      rw [hread0, hwrite0, hcap0, if_pos (by omega)]
      rw [show n - (n - (C - 1)) = C - 1 by omega, Nat.mod_eq_of_lt (by omega)]
    have hfull0 : Lib.full s0 = true := by
      simp only [Lib.full, Lib.free, hsize0, hcap0, beq_iff_eq]
      omega
    have hforce : Lib.force_push s0 a = { s0 with
        buffer := s0.buffer.set (s0.write % C) a,
        read := (s0.read + 1) % (64 * C),
        write := (s0.write + 1) % (64 * C) } := by
      simp [Lib.force_push, Lib.capacity, Lib.fold, hfull0, hlenb]
    have h1 : (n + 1) % (64 * C) = n + 1 := Nat.mod_eq_of_lt (by omega)
    have h2 : (n - (C - 1) + 1) % (64 * C) = n - (C - 1) + 1 := Nat.mod_eq_of_lt (by omega)
    rw [hread0, hwrite0, h1, h2] at hforce
    rw [hforce]
    have hcapf : Lib.capacity { s0 with
        buffer := s0.buffer.set (n % C) a,
        read := n - (C - 1) + 1,
        write := n + 1 } = C := by
      simp [Lib.capacity, List.length_set, hlenb]
    refine ⟨hcapf, by show n - (C - 1) + 1 = n + 1 - (C - 1); omega, rfl, ?_⟩
    intro m hm
    show (s0.buffer.set (n % C) a).getD ((n + 1 - 1 - m) % C) 0
      = (vs0.concat a).getD (n + 1 - 1 - m) 0
    have hidxm : n + 1 - 1 - m = n - m := by omega
    rw [hidxm]
    cases m with
    | zero =>
      rw [Nat.sub_zero]
      rw [getD_set_self s0.buffer (n % C) a 0 (by rw [hlenb]; exact Nat.mod_lt _ (by omega))]
      rw [List.concat_eq_append, ← hlen0, getD_concat_self]
    | succ m2 =>
      have hm2 : m2 + 1 < C - 1 := hm
      have hne : n % C ≠ (n - (m2 + 1)) % C := by
        have hadd := add_mod_ne (n - (m2 + 1)) (m2 + 1) C (by omega) (by omega)
        rw [show n - (m2 + 1) + (m2 + 1) = n by omega] at hadd
        exact hadd
      rw [getD_set_ne s0.buffer (n % C) ((n - (m2 + 1)) % C) a 0 hne]
      have hc := hchar0 m2 (by omega)
      have he : n - (m2 + 1) = n - 1 - m2 := by omega
      rw [he, hc, List.concat_eq_append]
      exact (getD_append_lt vs0 [a] (n - 1 - m2) 0 (by rw [hlen0]; omega)).symm

/-- C4 (counterexample): the claim says `M > C` force-pushes leave the
most recent `C` values retrievable.  With `C = 2` and force-pushes of
`1, 2, 3`, popping twice yields `3` and then an empty-buffer error —
only the most recent `C - 1 = 1` value is retrievable, not `[2, 3]`. -/
theorem C4_force_push_overwrite_cex :
    (Lib.popN (Lib.forceAll (Lib.new 2) [1, 2, 3]) 2).1
        = [Except.ok 3, Except.error (Lib.SPSCRingBufferError.PopError 3)] ∧
    (Lib.popN (Lib.forceAll (Lib.new 2) [1, 2, 3]) 2).1 ≠ [Except.ok 2, Except.ok 3] := by
  exact ⟨by decide, by decide⟩

/-- C4 (amended): after `M` force-pushes of `vs` (with `C < M < 64*C`,
the fold-free regime) into a fresh buffer of capacity `C ≥ 2`, exactly
the most recent `C - 1` values (not `C`) are retrievable by successive
pops, oldest-first; the buffer is then empty and a further pop fails. -/
theorem C4_force_push_retention (C : Nat) (vs : List Nat) (hC : 2 ≤ C)
    (hM : C < vs.length) (hM64 : vs.length < 64 * C) :
    (Lib.popN (Lib.forceAll (Lib.new C) vs) (C - 1)).1
      = (vs.drop (vs.length - (C - 1))).map Except.ok ∧
    Lib.empty (Lib.popN (Lib.forceAll (Lib.new C) vs) (C - 1)).2 = true ∧
    (Lib.pop (Lib.popN (Lib.forceAll (Lib.new C) vs) (C - 1)).2).1
      = Except.error (Lib.SPSCRingBufferError.PopError vs.length) := by
  have hinv := lib_force_inv C hC vs.length (by omega) (by omega) vs rfl
  revert hinv
  generalize Lib.forceAll (Lib.new C) vs = s1
  intro hinv
  obtain ⟨hcap, hread, hwrite, hchar⟩ := hinv
  have hpop := lib_pop_run (C - 1) s1 (by rw [hcap]; omega)
    (by rw [hread, hwrite]; omega) (by rw [hread, hwrite, hcap]; omega)
    (by rw [hwrite, hcap]; omega)
  obtain ⟨hvals, hcap2, hread2, hwrite2⟩ := hpop
  simp only [hread, hcap] at hvals
  have hempty2 : Lib.empty (Lib.popN s1 (C - 1)).2 = true := by
    simp only [Lib.empty, hread2, hwrite2, hread, hwrite, beq_iff_eq]
    omega
  refine ⟨?_, hempty2, ?_⟩
  · rw [hvals]
    apply List.ext_getElem
    · simp only [List.length_map, List.length_range, List.length_drop]
      omega
    · intro i h1 h2
      simp only [List.getElem_map, List.getElem_range, List.getElem_drop]
      have hi2 : i < C - 1 := by simpa using h1
      have hidxeq : vs.length - (C - 1) + i = vs.length - 1 - (C - 2 - i) := by omega
      rw [← List.getD_eq_getElem vs 0 (by omega : vs.length - (C - 1) + i < vs.length)]
      rw [hidxeq, hchar (C - 2 - i) (by omega)]
  · have hres : (Lib.pop (Lib.popN s1 (C - 1)).2).1
        = Except.error (Lib.SPSCRingBufferError.PopError ((Lib.popN s1 (C - 1)).2).write) := by
      simp [Lib.pop, hempty2]
    rw [hres, hwrite2, hwrite]

/-- C4 (witness): capacity 2 with force-pushes of `1, 2, 3`: one pop
retrieves the most recent value `3`, then the buffer is empty. -/
theorem C4_force_push_retention_witness :
    (Lib.popN (Lib.forceAll (Lib.new 2) [1, 2, 3]) 1).1 = [Except.ok 3] ∧
    Lib.empty (Lib.popN (Lib.forceAll (Lib.new 2) [1, 2, 3]) 1).2 = true ∧
    (Lib.pop (Lib.popN (Lib.forceAll (Lib.new 2) [1, 2, 3]) 1).2).1
      = Except.error (Lib.SPSCRingBufferError.PopError 3) :=
  C4_force_push_retention 2 [1, 2, 3] (by omega) (by norm_num) (by norm_num)
